import Mathlib

/-!
Verification of the tracker-report page's fragment parser
(frontend/src/pages/tracker-report.page.tsx).

The page's only logic is `parseHash`, which takes the raw URL fragment,
strips the leading delimiter, URL-decodes the remainder
(the ECMAScript `decodeURIComponent` builtin), parses it as JSON
(the ECMAScript `JSON.parse` builtin), validates the result's shape with
`containsReportData`, and on success copies the three recognized fields
into a fresh `ReportData` record.  Everything below is a shallow embedding
of that pipeline over `List Char`:

* `JsonValue` models the values `JSON.parse` can produce.  JavaScript
  numbers are modelled as `Rat` so that `Number.isInteger` is expressible
  (`den = 1`); this is exact for every integer of interest and diverges
  from IEEE doubles only far outside the data the page handles.
* `decodeFuel`/`decodePercent` model `decodeURIComponent`: percent escapes
  are read as UTF-8 byte sequences (continuation bytes checked, overlong
  forms, surrogates and out-of-range code points rejected, as the
  ECMAScript Decode algorithm prescribes).  A JavaScript string can hold
  lone surrogates and a Lean `String` cannot, so inputs that decode to
  lone surrogates are modelled as failures; no claim touches them.
* `parseValue`/`parseElems`/`parseMembers` model `JSON.parse` proper,
  recursing on a fuel argument large enough for any input (each unit of
  nesting consumes at least one input character, and the fuel is twice
  the input length plus a constant).  Duplicate object keys keep the last
  binding, as `JSON.parse` does (`lookupLast`).
-/

set_option maxHeartbeats 1600000

namespace TrackerReport

/-- Runtime JSON values: the possible results of the JSON.parse builtin.
Numbers are modelled exactly as rationals (see the file comment). -/
inductive JsonValue where
  | jnull : JsonValue
  | jbool : Bool → JsonValue
  | jnum : Rat → JsonValue
  | jstr : String → JsonValue
  | jarr : List JsonValue → JsonValue
  | jobj : List (String × JsonValue) → JsonValue

/-- ReportData, from tracker-report.page.tsx lines 21 to 25: the record type
the page renders.  The source keeps the snake_case field name received_at. -/
structure ReportData where
  sender : String
  received_at : Int
  trackers : List String
deriving DecidableEq

/-- JSON whitespace per RFC 8259 and the JSON.parse grammar: space, tab,
line feed, carriage return. -/
def isWsChar (c : Char) : Bool :=
  c.toNat = 32 || c.toNat = 9 || c.toNat = 10 || c.toNat = 13

/-- Drop leading JSON whitespace. -/
def skipWs : List Char → List Char
  | [] => []
  | c :: cs => if isWsChar c then skipWs cs else c :: cs

/-- Decimal digit test on the code point. -/
def isDigitCh (c : Char) : Bool := 48 ≤ c.toNat && c.toNat ≤ 57

/-- Value of a hexadecimal digit character, if it is one. -/
def hexVal (c : Char) : Option Nat :=
  if 48 ≤ c.toNat ∧ c.toNat ≤ 57 then some (c.toNat - 48)
  else if 65 ≤ c.toNat ∧ c.toNat ≤ 70 then some (c.toNat - 55)
  else if 97 ≤ c.toNat ∧ c.toNat ≤ 102 then some (c.toNat - 87)
  else none

/-- Consume a run of decimal digits, folding their value onto an
accumulator and counting them; stops at the first non-digit. -/
def takeDigitsCnt : Nat → Nat → List Char → Nat × Nat × List Char
  | acc, cnt, [] => (acc, cnt, [])
  | acc, cnt, c :: cs =>
    if isDigitCh c then takeDigitsCnt (acc * 10 + (c.toNat - 48)) (cnt + 1) cs
    else (acc, cnt, c :: cs)

/-- Integer part of a JSON number: a lone zero, or a leading nonzero digit
followed by a digit run.  A zero followed by more digits parses as the
zero alone; the leftover digit then makes the surrounding context fail,
which is observably the grammar's rejection of leading zeros. -/
def parseIntPart : List Char → Option (Nat × List Char)
  | [] => none
  | c :: r =>
    if c.toNat = 48 then some (0, r)
    else if isDigitCh c then
      match takeDigitsCnt 0 0 (c :: r) with
      | (v, _, rest) => some (v, rest)
    else none

/-- Optional fraction part: a dot requires at least one digit.  Returns the
fraction's value, its digit count, and the rest. -/
def parseFrac : List Char → Option (Nat × Nat × List Char)
  | [] => some (0, 0, [])
  | c :: r =>
    if c = '.' then
      match r with
      | [] => none
      | d :: r2 =>
        if isDigitCh d then
          match takeDigitsCnt 0 0 (d :: r2) with
          | (v, k, rest) => some (v, k, rest)
        else none
    else some (0, 0, c :: r)

/-- Digit run of an exponent, with its sign already read. -/
def readExpDigits (neg : Bool) : List Char → Option (Int × List Char)
  | [] => none
  | d :: r =>
    if isDigitCh d then
      match takeDigitsCnt 0 0 (d :: r) with
      | (v, _, rest) => some (if neg then -(v : Int) else (v : Int), rest)
    else none

/-- Optional exponent part: e or E, an optional sign, then ≥ 1 digit. -/
def parseExp : List Char → Option (Int × List Char)
  | [] => some (0, [])
  | c :: r =>
    if c = 'e' ∨ c = 'E' then
      match r with
      | [] => none
      | s :: r2 =>
        if s = '+' then readExpDigits false r2
        else if s = '-' then readExpDigits true r2
        else readExpDigits false r
    else some (0, c :: r)

/-- Exact value of a power of ten with an integer exponent. -/
def ratPow10 (e : Int) : Rat :=
  if 0 ≤ e then ((10 ^ e.toNat : Nat) : Rat) else 1 / ((10 ^ (-e).toNat : Nat) : Rat)

/-- JSON number: optional minus, integer part, optional fraction and
exponent, assembled exactly as a rational.  An integer literal, no
fraction and no exponent, is the integer itself; otherwise the value is
the scaled mantissa, mantissa times ten to the exponent minus the
fraction length (the two branches agree, the first is the second with a
unit scale factor, stated separately so integer values are directly the
integer cast). -/
def parseNumber (cs : List Char) : Option (JsonValue × List Char) :=
  let sgn : Bool × List Char :=
    match cs with
    | c :: r => if c = '-' then (true, r) else (false, cs)
    | [] => (false, cs)
  match parseIntPart sgn.2 with
  | none => none
  | some (ip, r1) =>
    match parseFrac r1 with
    | none => none
    | some (fv, fk, r2) =>
      match parseExp r2 with
      | none => none
      | some (ex, r3) =>
        let m : Int := (if sgn.1 then -1 else 1) * ((ip * 10 ^ fk + fv : Nat) : Int)
        if fk = 0 ∧ ex = 0 then some (.jnum (m : Rat), r3)
        else some (.jnum ((m : Rat) * ratPow10 (ex - (fk : Int))), r3)

/-- Prepends a character onto the string being accumulated by
parseStringRest. -/
def consMap (c : Char) : Option (List Char × List Char) → Option (List Char × List Char)
  | none => none
  | some (s, r) => some (c :: s, r)

/-- The four (or, for a surrogate pair, ten) characters after a backslash
u in a JSON string literal: four hex digits giving a code unit; a high
surrogate must be followed by a second u escape holding a low surrogate,
and the pair combines into one scalar value.  A lone surrogate would
produce a string no Lean String can hold, so it is modelled as a failure
(see the file comment). -/
def readUnicodeEscape : List Char → Option (Char × List Char)
  | h1 :: h2 :: h3 :: h4 :: cs3 =>
    match hexVal h1, hexVal h2, hexVal h3, hexVal h4 with
    | some a, some b, some c2, some d =>
      if a * 4096 + b * 256 + c2 * 16 + d < 0xD800
          ∨ 0xDFFF < a * 4096 + b * 256 + c2 * 16 + d then
        some (Char.ofNat (a * 4096 + b * 256 + c2 * 16 + d), cs3)
      else if a * 4096 + b * 256 + c2 * 16 + d < 0xDC00 then
        match cs3 with
        | e2 :: u2 :: g1 :: g2 :: g3 :: g4 :: cs4 =>
          if e2 = '\\' ∧ u2 = 'u' then
            match hexVal g1, hexVal g2, hexVal g3, hexVal g4 with
            | some a2, some b2, some c3, some d2 =>
              if 0xDC00 ≤ a2 * 4096 + b2 * 256 + c3 * 16 + d2
                  ∧ a2 * 4096 + b2 * 256 + c3 * 16 + d2 ≤ 0xDFFF then
                some (Char.ofNat (0x10000
                    + (a * 4096 + b * 256 + c2 * 16 + d - 0xD800) * 1024
                    + (a2 * 4096 + b2 * 256 + c3 * 16 + d2 - 0xDC00)), cs4)
              else none
            | _, _, _, _ => none
          else none
        | _ => none
      else none
    | _, _, _, _ => none
  | _ => none

/-- Fuelled body of a JSON string literal, after the opening quote: plain
characters (no unescaped controls), the short escapes, and u escapes.
One unit of fuel per produced character suffices. -/
def parseStringLoop : Nat → List Char → Option (List Char × List Char)
  | 0, _ => none
  | fuel + 1, cs =>
    match cs with
    | [] => none
    | c :: cs =>
      if c = '"' then some ([], cs)
      else if c = '\\' then
        match cs with
        | [] => none
        | e :: cs2 =>
          if e = '"' then consMap '"' (parseStringLoop fuel cs2)
          else if e = '\\' then consMap '\\' (parseStringLoop fuel cs2)
          else if e = '/' then consMap '/' (parseStringLoop fuel cs2)
          else if e = 'b' then consMap (Char.ofNat 8) (parseStringLoop fuel cs2)
          else if e = 'f' then consMap (Char.ofNat 12) (parseStringLoop fuel cs2)
          else if e = 'n' then consMap (Char.ofNat 10) (parseStringLoop fuel cs2)
          else if e = 'r' then consMap (Char.ofNat 13) (parseStringLoop fuel cs2)
          else if e = 't' then consMap (Char.ofNat 9) (parseStringLoop fuel cs2)
          else if e = 'u' then
            match readUnicodeEscape cs2 with
            | none => none
            | some (ch, cs3) => consMap ch (parseStringLoop fuel cs3)
          else none
      else if c.toNat < 32 then none
      else consMap c (parseStringLoop fuel cs)

/-- Body of a JSON string literal, after the opening quote.  Every step of
the loop consumes at least one input character, so one unit of fuel per
input character suffices for any input. -/
def parseStringRest (cs : List Char) : Option (List Char × List Char) :=
  parseStringLoop (cs.length + 1) cs

/-- Literal keyword tail, e.g. the ull after an n. -/
def expectLit (pat : List Char) (cs : List Char) : Option (List Char) :=
  if pat.isPrefixOf cs then some (cs.drop pat.length) else none

mutual

/-- A JSON value: object, array, string, the three keywords, or a number.
Structured on a fuel argument; jsonParse supplies enough fuel for any
input (each recursion unit consumes input, see jsonParse). -/
def parseValue : Nat → List Char → Option (JsonValue × List Char)
  | 0, _ => none
  | fuel + 1, cs =>
    match cs with
    | [] => none
    | c :: rest =>
      if c = '\x7b' then
        match skipWs rest with
        | [] => none
        | c2 :: rest2 =>
          if c2 = '\x7d' then some (.jobj [], rest2)
          else
            match parseMembers fuel (c2 :: rest2) with
            | none => none
            | some (ms, r) => some (.jobj ms, r)
      else if c = '[' then
        match skipWs rest with
        | [] => none
        | c2 :: rest2 =>
          if c2 = ']' then some (.jarr [], rest2)
          else
            match parseElems fuel (c2 :: rest2) with
            | none => none
            | some (es, r) => some (.jarr es, r)
      else if c = '"' then
        match parseStringRest rest with
        | none => none
        | some (s, r) => some (.jstr ⟨s⟩, r)
      else if c = 'n' then
        match expectLit ['u', 'l', 'l'] rest with
        | none => none
        | some r => some (.jnull, r)
      else if c = 't' then
        match expectLit ['r', 'u', 'e'] rest with
        | none => none
        | some r => some (.jbool true, r)
      else if c = 'f' then
        match expectLit ['a', 'l', 's', 'e'] rest with
        | none => none
        | some r => some (.jbool false, r)
      else parseNumber (c :: rest)

/-- One or more comma-separated array elements, then the closing bracket.
The empty array is handled in parseValue. -/
def parseElems : Nat → List Char → Option (List JsonValue × List Char)
  | 0, _ => none
  | fuel + 1, cs =>
    match parseValue fuel cs with
    | none => none
    | some (v, r) =>
      match skipWs r with
      | [] => none
      | c :: r2 =>
        if c = ',' then
          match parseElems fuel (skipWs r2) with
          | none => none
          | some (vs, r3) => some (v :: vs, r3)
        else if c = ']' then some ([v], r2)
        else none

/-- One or more comma-separated members, then the closing brace.  The empty
object is handled in parseValue.  Duplicate keys are kept; lookupLast
realizes the JSON.parse behaviour that the last binding wins. -/
def parseMembers : Nat → List Char → Option (List (String × JsonValue) × List Char)
  | 0, _ => none
  | fuel + 1, cs =>
    match cs with
    | [] => none
    | c :: rest =>
      if c = '"' then
        match parseStringRest rest with
        | none => none
        | some (k, r1) =>
          match skipWs r1 with
          | [] => none
          | c2 :: r2 =>
            if c2 = ':' then
              match parseValue fuel (skipWs r2) with
              | none => none
              | some (v, r3) =>
                match skipWs r3 with
                | [] => none
                | c3 :: r4 =>
                  if c3 = ',' then
                    match parseMembers fuel (skipWs r4) with
                    | none => none
                    | some (ms, r5) => some ((⟨k⟩, v) :: ms, r5)
                  else if c3 = '\x7d' then some ([(⟨k⟩, v)], r4)
                  else none
            else none
      else none

end

/-- JSON.parse on a character list: a single value surrounded by optional
whitespace.  Twice the length plus nine units of fuel always suffice,
because every unit of value nesting consumes at least one character. -/
def jsonParse (cs : List Char) : Option JsonValue :=
  match parseValue (2 * cs.length + 9) (skipWs cs) with
  | none => none
  | some (v, rest) => if skipWs rest = [] then some v else none

/-- Two hexadecimal digit characters read as one byte. -/
def readHexPair : List Char → Option (Nat × List Char)
  | h :: l :: rest =>
    match hexVal h, hexVal l with
    | some a, some b => some (a * 16 + b, rest)
    | _, _ => none
  | _ => none

/-- A percent escape holding a UTF-8 continuation byte; yields its six
payload bits. -/
def readContEscape : List Char → Option (Nat × List Char)
  | [] => none
  | c :: rest =>
    if c = '%' then
      match readHexPair rest with
      | none => none
      | some (b, r) => if 0x80 ≤ b ∧ b < 0xC0 then some (b - 0x80, r) else none
    else none

/-- Fuelled worker for decodePercent: ordinary characters pass through, a
percent escape must begin a well-formed UTF-8 byte sequence (continuation
count determined by the lead byte; overlong encodings, surrogates and
values above 0x10FFFF rejected), which becomes one character. -/
def decodeFuel : Nat → List Char → Option (List Char)
  | 0, _ => none
  | fuel + 1, cs =>
    match cs with
    | [] => some []
    | c :: rest =>
      if c = '%' then
        match readHexPair rest with
        | none => none
        | some (b0, r1) =>
          if b0 < 0x80 then
            match decodeFuel fuel r1 with
            | none => none
            | some out => some (Char.ofNat b0 :: out)
          else if b0 < 0xC2 then none
          else if b0 < 0xE0 then
            match readContEscape r1 with
            | none => none
            | some (x1, r2) =>
              match decodeFuel fuel r2 with
              | none => none
              | some out => some (Char.ofNat ((b0 - 0xC0) * 64 + x1) :: out)
          else if b0 < 0xF0 then
            match readContEscape r1 with
            | none => none
            | some (x1, r2) =>
              match readContEscape r2 with
              | none => none
              | some (x2, r3) =>
                if 0x800 ≤ (b0 - 0xE0) * 4096 + x1 * 64 + x2
                    ∧ ((b0 - 0xE0) * 4096 + x1 * 64 + x2 < 0xD800
                       ∨ 0xDFFF < (b0 - 0xE0) * 4096 + x1 * 64 + x2) then
                  match decodeFuel fuel r3 with
                  | none => none
                  | some out =>
                    some (Char.ofNat ((b0 - 0xE0) * 4096 + x1 * 64 + x2) :: out)
                else none
          else if b0 < 0xF5 then
            match readContEscape r1 with
            | none => none
            | some (x1, r2) =>
              match readContEscape r2 with
              | none => none
              | some (x2, r3) =>
                match readContEscape r3 with
                | none => none
                | some (x3, r4) =>
                  if 0x10000 ≤ (b0 - 0xF0) * 262144 + x1 * 4096 + x2 * 64 + x3
                      ∧ (b0 - 0xF0) * 262144 + x1 * 4096 + x2 * 64 + x3 ≤ 0x10FFFF then
                    match decodeFuel fuel r4 with
                    | none => none
                    | some out =>
                      some (Char.ofNat
                        ((b0 - 0xF0) * 262144 + x1 * 4096 + x2 * 64 + x3) :: out)
                  else none
          else none
      else
        match decodeFuel fuel rest with
        | none => none
        | some out => some (c :: out)

/-- Model of the ECMAScript decodeURIComponent builtin over characters.
One unit of fuel per input character suffices, since every step consumes
at least one character. -/
def decodePercent (cs : List Char) : Option (List Char) :=
  decodeFuel (cs.length + 1) cs

/-- Property lookup on a parsed object's member list: the LAST binding of
the key wins, matching how repeated keys behave under JSON.parse. -/
def lookupLast : List (String × JsonValue) → String → Option JsonValue
  | [], _ => none
  | (k2, v) :: rest, k =>
    match lookupLast rest k with
    | some v2 => some v2
    | none => if k2 = k then some v else none

/-- JavaScript property access parsed.name for the names this page reads:
defined on objects; on every other JSON value (including arrays) those
named properties are absent, i.e. undefined. -/
def getProp : JsonValue → String → Option JsonValue
  | .jobj fields, k => lookupLast fields k
  | _, _ => none

/-- Test matching typeof parsed === "object": true for objects, arrays and
null, false for every primitive. -/
def typeofObject : JsonValue → Bool
  | .jobj _ => true
  | .jarr _ => true
  | .jnull => true
  | _ => false

/-- Test for the null value, as in parsed !== null. -/
def isNullJson : JsonValue → Bool
  | .jnull => true
  | _ => false

/-- Test matching typeof x === "string" applied to a property access
result: undefined (none) is not a string. -/
def isStringJson : Option JsonValue → Bool
  | some (.jstr _) => true
  | _ => false

/-- Test matching Number.isInteger applied to a property access result:
true exactly on integral numbers, false on undefined and non-numbers. -/
def isIntegerJson : Option JsonValue → Bool
  | some (.jnum q) => q.den == 1
  | _ => false

/-- Test matching Array.isArray applied to a property access result. -/
def isArrayJson : Option JsonValue → Bool
  | some (.jarr _) => true
  | _ => false

/-- Test for a string element, as in typeof tracker === "string". -/
def isStrElem : JsonValue → Bool
  | .jstr _ => true
  | _ => false

/-- Trackers check of containsReportData: the trackers property is an
array and every element is a string. -/
def trackersOk : Option JsonValue → Bool
  | some (.jarr es) => es.all isStrElem
  | _ => false

/-- containsReportData, from tracker-report.page.tsx lines 209 to 218:
parsed is a non-null object, parsed.sender is a string,
parsed.received_at is an integer (Number.isInteger), parsed.trackers is
an array whose elements are all strings. -/
def containsReportData (parsed : JsonValue) : Bool :=
  typeofObject parsed && !isNullJson parsed
    && isStringJson (getProp parsed "sender")
    && isIntegerJson (getProp parsed "received_at")
    && trackersOk (getProp parsed "trackers")

/-- Projection of a JSON string element, used when the validated trackers
array is copied into the typed record. -/
def asString : JsonValue → Option String
  | .jstr s => some s
  | _ => none

/-- parseHash, from tracker-report.page.tsx lines 190 to 204:
JSON.parse(decodeURIComponent(hash.substring(1))), guarded by
containsReportData; on success the three recognized fields are copied
into a ReportData, on any failure (decode error, parse error, shape
error) the caller receives null, modelled as none. -/
def parseHash (hash : String) : Option ReportData :=
  match decodePercent (hash.data.drop 1) with
  | none => none
  | some body =>
    match jsonParse body with
    | none => none
    | some data =>
      if containsReportData data then
        match getProp data "sender", getProp data "received_at",
            getProp data "trackers" with
        | some (.jstr s), some (.jnum t), some (.jarr tr) =>
          some { sender := s, received_at := t.num, trackers := tr.filterMap asString }
        | _, _, _ => none
      else none

/-- Runtime shape of the record literal parseHash returns (lines 196 to
200 of the source): a JavaScript object whose keys, in insertion order,
are sender, received_at and trackers.  This renders the typed ReportData
back as the key-value record the page actually builds, so that claims
about the output's field NAMES are expressible. -/
def jsObjectOfReport (r : ReportData) : List (String × JsonValue) :=
  [("sender", .jstr r.sender),
   ("received_at", .jnum (r.received_at : Rat)),
   ("trackers", .jarr (r.trackers.map .jstr))]

/-- JSON value of a report record, as JSON.parse would return it. -/
def reportJson (r : ReportData) : JsonValue :=
  .jobj [("sender", .jstr r.sender),
         ("received_at", .jnum (r.received_at : Rat)),
         ("trackers", .jarr (r.trackers.map .jstr))]

/-- Uppercase hexadecimal digit character for a value below sixteen. -/
def hexUpper (n : Nat) : Char :=
  if n < 10 then Char.ofNat (48 + n) else Char.ofNat (55 + n)

/-- Lowercase hexadecimal digit character for a value below sixteen. -/
def hexLower (n : Nat) : Char :=
  if n < 10 then Char.ofNat (48 + n) else Char.ofNat (87 + n)

/-- Concatenated image of a list under a list-valued function. -/
def concatMap (f : α → List β) : List α → List β
  | [] => []
  | a :: as => f a ++ concatMap f as

/-- One character of a JSON string literal as JSON.stringify emits it:
quote, backslash and the named control characters get short escapes, the
other control characters get u escapes, everything else is literal. -/
def escapeJsonChar (c : Char) : List Char :=
  if c.toNat = 34 then ['\\', '"']
  else if c.toNat = 92 then ['\\', '\\']
  else if c.toNat = 8 then ['\\', 'b']
  else if c.toNat = 9 then ['\\', 't']
  else if c.toNat = 10 then ['\\', 'n']
  else if c.toNat = 12 then ['\\', 'f']
  else if c.toNat = 13 then ['\\', 'r']
  else if c.toNat < 32 then
    ['\\', 'u', '0', '0', hexLower (c.toNat / 16), hexLower (c.toNat % 16)]
  else [c]

/-- JSON escape of a whole character list. -/
def escapeString (s : List Char) : List Char := concatMap escapeJsonChar s

/-- Quoted JSON string literal of a string. -/
def quoteChars (s : String) : List Char := '"' :: (escapeString s.data ++ ['"'])

/-- Decimal digit characters of a natural number, most significant first. -/
def natDigits (n : Nat) : List Char :=
  if h : n < 10 then [Char.ofNat (48 + n)]
  else natDigits (n / 10) ++ [Char.ofNat (48 + n % 10)]
termination_by n
decreasing_by exact Nat.div_lt_self (by omega) (by omega)

/-- Decimal characters of an integer: optional minus sign, then digits.
This is how JSON.stringify prints the integral received_at values the
wire format carries. -/
def intChars (t : Int) : List Char :=
  if t < 0 then '-' :: natDigits t.natAbs else natDigits t.natAbs

/-- Comma-separated quoted strings, the body of the trackers array. -/
def elemsChars : List String → List Char
  | [] => []
  | [t] => quoteChars t
  | t :: ts => quoteChars t ++ ',' :: elemsChars ts

/-- A JSON array of strings, brackets included. -/
def arrChars (ts : List String) : List Char := '[' :: (elemsChars ts ++ [']'])

/-- A quoted object key followed by its colon. -/
def keyChars (k : String) : List Char := quoteChars k ++ [':']

/-- Member list of the wire-format object, in the insertion order of the
source record: sender, received_at, trackers. -/
def membersChars (r : ReportData) : List Char :=
  keyChars "sender" ++ quoteChars r.sender
    ++ ',' :: (keyChars "received_at" ++ intChars r.received_at
    ++ ',' :: (keyChars "trackers" ++ arrChars r.trackers))

/-- Modelled from the spec: the JSON text of the wire format of section 6,
as JSON.stringify produces it for a report record (the generator that
builds these links lives outside this page's source).  An object with
exactly the three fields sender, received_at, trackers, no whitespace. -/
def reportChars (r : ReportData) : List Char :=
  '\x7b' :: (membersChars r ++ ['\x7d'])

/-- The characters ECMAScript encodeURIComponent leaves unescaped:
letters, digits, and minus underscore dot bang tilde star quote parens. -/
def isUnreservedURI (c : Char) : Bool :=
  (65 ≤ c.toNat && c.toNat ≤ 90) || (97 ≤ c.toNat && c.toNat ≤ 122)
    || (48 ≤ c.toNat && c.toNat ≤ 57)
    || c.toNat = 45 || c.toNat = 95 || c.toNat = 46 || c.toNat = 33
    || c.toNat = 126 || c.toNat = 42 || c.toNat = 39 || c.toNat = 40
    || c.toNat = 41

/-- UTF-8 bytes of a Unicode scalar value. -/
def utf8Bytes (n : Nat) : List Nat :=
  if n < 0x80 then [n]
  else if n < 0x800 then [0xC0 + n / 64, 0x80 + n % 64]
  else if n < 0x10000 then
    [0xE0 + n / 4096, 0x80 + n / 64 % 64, 0x80 + n % 64]
  else
    [0xF0 + n / 262144, 0x80 + n / 4096 % 64, 0x80 + n / 64 % 64, 0x80 + n % 64]

/-- Percent escape of one byte, uppercase hex as ECMAScript emits it. -/
def byteEscape (b : Nat) : List Char := ['%', hexUpper (b / 16), hexUpper (b % 16)]

/-- Model of the ECMAScript encodeURIComponent builtin on one character:
unreserved characters stand for themselves, everything else becomes the
percent escapes of its UTF-8 bytes. -/
def percentEncodeChar (c : Char) : List Char :=
  if isUnreservedURI c then [c] else concatMap byteEscape (utf8Bytes c.toNat)

/-- Model of the ECMAScript encodeURIComponent builtin. -/
def percentEncode (cs : List Char) : List Char := concatMap percentEncodeChar cs

/-- Modelled from the spec: encoding a ReportData to the wire format, the
JSON object with sender, received_at and trackers placed after the hash
delimiter, percent-encoded as a URL fragment (spec section 6; the email
side that builds these links is outside this page's source). -/
def encodeReport (r : ReportData) : String :=
  ⟨'#' :: percentEncode (reportChars r)⟩

/-! ## Basic character facts -/

/-- Validity of a character's code point, in Nat form: below the surrogate
range, or above it and below 0x110000. -/
theorem char_toNat_valid (c : Char) :
    c.toNat < 0xD800 ∨ (0xDFFF < c.toNat ∧ c.toNat < 0x110000) := c.valid

/-- Characters with equal code points are equal. -/
theorem char_toNat_inj {c d : Char} (h : c.toNat = d.toNat) : c = d := by
  rw [← Char.ofNat_toNat c, ← Char.ofNat_toNat d, h]

/-- Code point of a packed valid code point. -/
theorem toNat_ofNat_valid (n : Nat) (h : n.isValidChar) : (Char.ofNat n).toNat = n := by
  rw [Char.ofNat, dif_pos h]
  rfl

/-- Uppercase hex digits evaluate back to their value. -/
theorem hexVal_hexUpper (d : Nat) (h : d < 16) : hexVal (hexUpper d) = some d := by
  interval_cases d <;> decide

/-- Lowercase hex digits evaluate back to their value. -/
theorem hexVal_hexLower (d : Nat) (h : d < 16) : hexVal (hexLower d) = some d := by
  interval_cases d <;> decide

/-! ## The decodeURIComponent round trip -/

/-- Reading back the two hex characters of an escaped byte. -/
theorem readHexPair_byteEscape (b : Nat) (h : b < 256) (rest : List Char) :
    readHexPair (hexUpper (b / 16) :: hexUpper (b % 16) :: rest) = some (b, rest) := by
  rw [readHexPair, hexVal_hexUpper (b / 16) (by omega), hexVal_hexUpper (b % 16) (by omega)]
  dsimp only
  have : b / 16 * 16 + b % 16 = b := by omega
  rw [this]

/-- Reading back an escaped UTF-8 continuation byte. -/
theorem readContEscape_byteEscape (b : Nat) (h1 : 0x80 ≤ b) (h2 : b < 0xC0)
    (rest : List Char) :
    readContEscape (byteEscape b ++ rest) = some (b - 0x80, rest) := by
  rw [byteEscape, List.cons_append, List.cons_append, List.cons_append, List.nil_append,
    readContEscape, if_pos rfl, readHexPair_byteEscape b (by omega)]
  dsimp only
  rw [if_pos ⟨h1, h2⟩]

/-- Unreserved characters are not the percent sign. -/
theorem unreserved_ne_percent {c : Char} (h : isUnreservedURI c = true) : ¬(c = '%') := by
  intro he
  subst he
  simp [isUnreservedURI] at h

/-- Decoding inverts encoding, at any fuel at least one unit per source
character: the heart of the decodeURIComponent model's correctness on
encodeURIComponent output. -/
theorem decodeFuel_percentEncode (cs : List Char) :
    ∀ extra : Nat, decodeFuel (cs.length + 1 + extra) (percentEncode cs) = some cs := by
  induction cs with
  | nil =>
    intro extra
    have h : ([] : List Char).length + 1 + extra = extra + 1 := by simp; omega
    rw [percentEncode, concatMap, h]
    rfl
  | cons c cs ih =>
    intro extra
    have hfuel : (c :: cs).length + 1 + extra = (cs.length + 1 + extra) + 1 := by
      simp [List.length_cons]; omega
    rw [hfuel]
    rw [percentEncode, concatMap]
    rw [show concatMap percentEncodeChar cs = percentEncode cs from rfl]
    by_cases hu : isUnreservedURI c = true
    · rw [percentEncodeChar, if_pos hu, List.cons_append, List.nil_append, decodeFuel,
        if_neg (unreserved_ne_percent hu), ih extra]
    · rw [percentEncodeChar, if_neg hu]
      have hval := char_toNat_valid c
      by_cases h1 : c.toNat < 0x80
      · rw [utf8Bytes, if_pos h1, concatMap, concatMap, List.append_nil, byteEscape,
          List.cons_append, List.cons_append, List.cons_append, List.nil_append,
          decodeFuel, if_pos rfl, readHexPair_byteEscape c.toNat (by omega)]
        dsimp only
        rw [if_pos h1, ih extra]
        dsimp only
        rw [Char.ofNat_toNat]
      · by_cases h2 : c.toNat < 0x800
        · rw [utf8Bytes, if_neg h1, if_pos h2, concatMap, concatMap, concatMap,
            List.append_nil, List.append_assoc, byteEscape, List.cons_append,
            List.cons_append, List.cons_append, List.nil_append, decodeFuel,
            if_pos rfl, readHexPair_byteEscape (0xC0 + c.toNat / 64) (by omega)]
          dsimp only
          rw [if_neg (by omega), if_neg (by omega), if_pos (by omega)]
          rw [readContEscape_byteEscape (0x80 + c.toNat % 64) (by omega) (by omega)]
          dsimp only
          rw [ih extra]
          dsimp only
          have harith : (0xC0 + c.toNat / 64 - 0xC0) * 64 + (0x80 + c.toNat % 64 - 0x80)
              = c.toNat := by omega
          rw [harith, Char.ofNat_toNat]
        · by_cases h3 : c.toNat < 0x10000
          · rw [utf8Bytes, if_neg h1, if_neg h2, if_pos h3, concatMap, concatMap,
              concatMap, concatMap, List.append_nil, List.append_assoc,
              List.append_assoc, byteEscape, List.cons_append, List.cons_append,
              List.cons_append, List.nil_append, decodeFuel, if_pos rfl,
              readHexPair_byteEscape (0xE0 + c.toNat / 4096) (by omega)]
            dsimp only
            rw [if_neg (by omega), if_neg (by omega), if_neg (by omega),
              if_pos (by omega)]
            rw [readContEscape_byteEscape (0x80 + c.toNat / 64 % 64) (by omega) (by omega)]
            dsimp only
            rw [readContEscape_byteEscape (0x80 + c.toNat % 64) (by omega) (by omega)]
            dsimp only
            have hdd : c.toNat / 64 / 64 = c.toNat / 4096 := by
              rw [Nat.div_div_eq_div_mul]
            rw [if_pos ⟨by omega, by omega⟩]
            rw [ih extra]
            dsimp only
            have harith : (0xE0 + c.toNat / 4096 - 0xE0) * 4096
                + (0x80 + c.toNat / 64 % 64 - 0x80) * 64
                + (0x80 + c.toNat % 64 - 0x80) = c.toNat := by omega
            rw [harith, Char.ofNat_toNat]
          · have h4 : c.toNat ≤ 0x10FFFF := by omega
            rw [utf8Bytes, if_neg h1, if_neg h2, if_neg h3, concatMap, concatMap,
              concatMap, concatMap, concatMap, List.append_nil, List.append_assoc,
              List.append_assoc, List.append_assoc, byteEscape, List.cons_append,
              List.cons_append, List.cons_append, List.nil_append, decodeFuel,
              if_pos rfl, readHexPair_byteEscape (0xF0 + c.toNat / 262144) (by omega)]
            dsimp only
            rw [if_neg (by omega), if_neg (by omega), if_neg (by omega),
              if_neg (by omega), if_pos (by omega)]
            rw [readContEscape_byteEscape (0x80 + c.toNat / 4096 % 64)
              (by omega) (by omega)]
            dsimp only
            rw [readContEscape_byteEscape (0x80 + c.toNat / 64 % 64) (by omega) (by omega)]
            dsimp only
            rw [readContEscape_byteEscape (0x80 + c.toNat % 64) (by omega) (by omega)]
            dsimp only
            have hd1 : c.toNat / 64 / 64 = c.toNat / 4096 := by
              rw [Nat.div_div_eq_div_mul]
            have hd2 : c.toNat / 4096 / 64 = c.toNat / 262144 := by
              rw [Nat.div_div_eq_div_mul]
            rw [if_pos ⟨by omega, by omega⟩]
            rw [ih extra]
            dsimp only
            have harith : (0xF0 + c.toNat / 262144 - 0xF0) * 262144
                + (0x80 + c.toNat / 4096 % 64 - 0x80) * 4096
                + (0x80 + c.toNat / 64 % 64 - 0x80) * 64
                + (0x80 + c.toNat % 64 - 0x80) = c.toNat := by omega
            rw [harith, Char.ofNat_toNat]

/-- Encoding never shrinks a string: one output character per input
character at least. -/
theorem percentEncode_length_ge (cs : List Char) :
    cs.length ≤ (percentEncode cs).length := by
  induction cs with
  | nil => simp [percentEncode, concatMap]
  | cons c cs ih =>
    rw [percentEncode, concatMap, List.length_append]
    have h1 : 1 ≤ (percentEncodeChar c).length := by
      rw [percentEncodeChar]
      split
      · simp
      · rw [utf8Bytes]
        split
        · simp [concatMap, byteEscape]
        · split
          · simp [concatMap, byteEscape]
          · split <;> simp [concatMap, byteEscape]
    have h2 : cs.length ≤ (percentEncode cs).length := ih
    simp only [List.length_cons]
    rw [show concatMap percentEncodeChar cs = percentEncode cs from rfl]
    omega

/-- Full round trip of the decodeURIComponent model on encodeURIComponent
output. -/
theorem decodePercent_percentEncode (cs : List Char) :
    decodePercent (percentEncode cs) = some cs := by
  rw [decodePercent]
  have hge := percentEncode_length_ge cs
  have h : (percentEncode cs).length + 1
      = cs.length + 1 + ((percentEncode cs).length - cs.length) := by omega
  rw [h]
  exact decodeFuel_percentEncode cs _

/-! ## Decimal digits and the number round trip -/

/-- Code point of a decimal digit character. -/
theorem toNat_digitChar (d : Nat) (h : d < 10) : (Char.ofNat (48 + d)).toNat = 48 + d :=
  toNat_ofNat_valid _ (Or.inl (by omega))

/-- Decimal digit characters pass the digit test. -/
theorem isDigitCh_digitChar (d : Nat) (h : d < 10) :
    isDigitCh (Char.ofNat (48 + d)) = true := by
  simp only [isDigitCh, toNat_digitChar d h, Bool.and_eq_true, decide_eq_true_eq]
  omega

/-- Unfolding of natDigits in last-digit-first form. -/
theorem natDigits_eq (n : Nat) :
    natDigits n
      = (if n < 10 then [] else natDigits (n / 10)) ++ [Char.ofNat (48 + n % 10)] := by
  rw [natDigits]
  by_cases h : n < 10
  · rw [dif_pos h, if_pos h, List.nil_append, Nat.mod_eq_of_lt h]
  · rw [dif_neg h, if_neg h]

/-- Every character natDigits produces is a digit. -/
theorem natDigits_all_digits (n : Nat) : ∀ c ∈ natDigits n, isDigitCh c = true := by
  induction n using Nat.strong_induction_on with
  | _ n ih =>
    rw [natDigits_eq]
    intro c hc
    rw [List.mem_append] at hc
    rcases hc with h | h
    · by_cases h10 : n < 10
      · rw [if_pos h10] at h; simp at h
      · rw [if_neg h10] at h
        exact ih (n / 10) (Nat.div_lt_self (by omega) (by omega)) c h
    · rw [List.mem_singleton] at h
      subst h
      exact isDigitCh_digitChar _ (Nat.mod_lt _ (by omega))

/-- Digit lists are never empty. -/
theorem natDigits_ne_nil (n : Nat) : natDigits n ≠ [] := by
  rw [natDigits_eq]; simp

/-- A digit list starts with a digit character. -/
theorem natDigits_cons (n : Nat) : ∃ c t, natDigits n = c :: t ∧ isDigitCh c = true := by
  cases h : natDigits n with
  | nil => exact absurd h (natDigits_ne_nil n)
  | cons c t => exact ⟨c, t, rfl, natDigits_all_digits n c (h ▸ List.mem_cons_self c t)⟩

/-- Digits of a positive number start with a nonzero digit. -/
theorem natDigits_head_pos : ∀ n, 1 ≤ n →
    ∃ c t, natDigits n = c :: t ∧ 49 ≤ c.toNat ∧ c.toNat ≤ 57 := by
  intro n
  induction n using Nat.strong_induction_on with
  | _ n ih =>
    intro hn
    rw [natDigits_eq]
    by_cases h10 : n < 10
    · rw [if_pos h10, List.nil_append]
      have hmod : n % 10 = n := Nat.mod_eq_of_lt h10
      refine ⟨_, _, rfl, ?_, ?_⟩ <;> rw [toNat_digitChar _ (by omega)] <;> omega
    · rw [if_neg h10]
      obtain ⟨c, t, hct, hge, hle⟩ :=
        ih (n / 10) (Nat.div_lt_self (by omega) (by omega)) (by omega)
      rw [hct, List.cons_append]
      exact ⟨c, _, rfl, hge, hle⟩

/-- One digit step of the digit-run reader. -/
theorem takeDigitsCnt_digit (d : Nat) (hd : d < 10) (acc cnt : Nat) (rest : List Char) :
    takeDigitsCnt acc cnt (Char.ofNat (48 + d) :: rest)
      = takeDigitsCnt (acc * 10 + d) (cnt + 1) rest := by
  rw [takeDigitsCnt, if_pos (isDigitCh_digitChar d hd), toNat_digitChar d hd]
  have h48 : 48 + d - 48 = d := by omega
  rw [h48]

/-- The digit-run reader consumes a whole digit list, folding its value
onto the accumulator, in continuation form. -/
theorem takeDigitsCnt_natDigits : ∀ n acc cnt (rest : List Char),
    takeDigitsCnt acc cnt (natDigits n ++ rest)
      = takeDigitsCnt (acc * 10 ^ (natDigits n).length + n)
          (cnt + (natDigits n).length) rest := by
  intro n
  induction n using Nat.strong_induction_on with
  | _ n ih =>
    intro acc cnt rest
    by_cases h10 : n < 10
    · have hlen : (natDigits n).length = 1 := by
        rw [natDigits_eq, if_pos h10]; rfl
      conv_lhs => rw [natDigits_eq, if_pos h10, List.nil_append, List.cons_append,
        List.nil_append]
      rw [takeDigitsCnt_digit (n % 10) (by omega), hlen]
      have hmod : n % 10 = n := Nat.mod_eq_of_lt h10
      rw [hmod, pow_one]
    · have hlen : (natDigits n).length = (natDigits (n / 10)).length + 1 := by
        conv_lhs => rw [natDigits_eq, if_neg h10]
        rw [List.length_append, List.length_singleton]
      conv_lhs => rw [natDigits_eq, if_neg h10, List.append_assoc, List.cons_append,
        List.nil_append]
      rw [ih (n / 10) (Nat.div_lt_self (by omega) (by omega)),
        takeDigitsCnt_digit (n % 10) (by omega), hlen]
      have hval : ∀ L : Nat, (acc * 10 ^ L + n / 10) * 10 + n % 10
          = acc * 10 ^ (L + 1) + n := by
        intro L
        have hdm : n / 10 * 10 + n % 10 = n := by omega
        calc (acc * 10 ^ L + n / 10) * 10 + n % 10
            = acc * (10 ^ L * 10) + (n / 10 * 10 + n % 10) := by ring
          _ = acc * 10 ^ (L + 1) + n := by rw [hdm, pow_succ]
      rw [hval _]
      have hcnt : cnt + (natDigits (n / 10)).length + 1
          = cnt + ((natDigits (n / 10)).length + 1) := by omega
      rw [hcnt]

/-- The digit-run reader stops at a comma. -/
theorem takeDigitsCnt_comma (acc cnt : Nat) (rest : List Char) :
    takeDigitsCnt acc cnt (',' :: rest) = (acc, cnt, ',' :: rest) := by
  rw [takeDigitsCnt, if_neg (by decide)]

/-- The integer-part reader consumes exactly a printed natural number when
a comma follows. -/
theorem parseIntPart_natDigits (m : Nat) (rest : List Char) :
    parseIntPart (natDigits m ++ ',' :: rest) = some (m, ',' :: rest) := by
  by_cases hm : m = 0
  · subst hm
    have h0 : natDigits 0 = [Char.ofNat 48] := by
      rw [natDigits_eq, if_pos (by omega), List.nil_append]
    rw [h0, List.cons_append, List.nil_append, parseIntPart,
      if_pos (by rw [toNat_digitChar 0 (by omega)])]
  · obtain ⟨c, t, hct, h49, h57⟩ := natDigits_head_pos m (by omega)
    rw [hct, List.cons_append, parseIntPart, if_neg (by omega),
      if_pos (by simp only [isDigitCh, Bool.and_eq_true, decide_eq_true_eq]; omega)]
    have hback : c :: (t ++ ',' :: rest) = natDigits m ++ ',' :: rest := by
      rw [hct, List.cons_append]
    rw [hback, takeDigitsCnt_natDigits, takeDigitsCnt_comma]
    dsimp only
    rw [Nat.zero_mul, Nat.zero_add]

/-- The fraction reader is the identity at a comma. -/
theorem parseFrac_comma (rest : List Char) :
    parseFrac (',' :: rest) = some (0, 0, ',' :: rest) := by
  rw [parseFrac.eq_def]
  dsimp only
  rw [if_neg (by decide)]

/-- The exponent reader is the identity at a comma. -/
theorem parseExp_comma (rest : List Char) :
    parseExp (',' :: rest) = some (0, ',' :: rest) := by
  rw [parseExp.eq_def]
  dsimp only
  rw [if_neg (by decide)]

/-- Ten to the zeroth power, exactly one. -/
theorem ratPow10_zero : ratPow10 0 = 1 := by
  rw [ratPow10, if_pos le_rfl]
  norm_num

/-- The number round trip: a printed integer followed by a comma parses
back to the same integral rational. -/
theorem parseNumber_intChars (t : Int) (rest : List Char) :
    parseNumber (intChars t ++ ',' :: rest) = some (.jnum (t : Rat), ',' :: rest) := by
  by_cases ht : t < 0
  · rw [intChars, if_pos ht, List.cons_append, parseNumber]
    dsimp only
    rw [if_pos rfl]
    dsimp only
    rw [parseIntPart_natDigits]
    dsimp only
    rw [parseFrac_comma]
    dsimp only
    rw [parseExp_comma]
    dsimp only
    rw [if_pos ⟨rfl, rfl⟩]
    have hm : (if true then (-1 : Int) else 1) * ((t.natAbs * 10 ^ 0 + 0 : Nat) : Int)
        = t := by
      rw [if_pos rfl, pow_zero, Nat.mul_one, Nat.add_zero]
      omega
    rw [hm]
  · rw [intChars, if_neg ht]
    obtain ⟨c, t2, hct, hd⟩ := natDigits_cons t.natAbs
    have hd57 : 48 ≤ c.toNat ∧ c.toNat ≤ 57 := by
      simpa only [isDigitCh, Bool.and_eq_true, decide_eq_true_eq] using hd
    rw [hct, List.cons_append, parseNumber]
    dsimp only
    rw [if_neg (fun he : c = '-' => by rw [he] at hd57; revert hd57; decide)]
    dsimp only
    have hback : c :: (t2 ++ ',' :: rest) = natDigits t.natAbs ++ ',' :: rest := by
      rw [hct, List.cons_append]
    rw [hback, parseIntPart_natDigits]
    dsimp only
    rw [parseFrac_comma]
    dsimp only
    rw [parseExp_comma]
    dsimp only
    rw [if_pos ⟨rfl, rfl⟩]
    have hm : (if false then (-1 : Int) else 1) * ((t.natAbs * 10 ^ 0 + 0 : Nat) : Int)
        = t := by
      rw [if_neg (by decide), pow_zero, Nat.mul_one, Nat.add_zero, one_mul]
      omega
    rw [hm]

/-- Head shape of a printed integer: a minus sign or a digit. -/
theorem intChars_head (t : Int) :
    ∃ c t2, intChars t = c :: t2 ∧ (c.toNat = 45 ∨ (48 ≤ c.toNat ∧ c.toNat ≤ 57)) := by
  by_cases ht : t < 0
  · rw [intChars, if_pos ht]
    exact ⟨'-', _, rfl, Or.inl rfl⟩
  · rw [intChars, if_neg ht]
    obtain ⟨c, t2, hct, hd⟩ := natDigits_cons t.natAbs
    refine ⟨c, t2, hct, Or.inr ?_⟩
    simpa only [isDigitCh, Bool.and_eq_true, decide_eq_true_eq] using hd

/-! ## The string-literal round trip -/

/-- skipWs does nothing to a non-whitespace head. -/
theorem skipWs_not {c : Char} (h : isWsChar c = false) (cs : List Char) :
    skipWs (c :: cs) = c :: cs := by
  rw [skipWs, if_neg (by rw [h]; exact Bool.false_ne_true)]

/-- The unicode-escape reader recovers any code point below the surrogate
range from a pair of lowercase hex digits after two zeros. -/
theorem readUnicodeEscape_low (d3 d4 : Nat) (h3 : d3 < 16) (h4 : d4 < 16)
    (tail : List Char) :
    readUnicodeEscape ('0' :: '0' :: hexLower d3 :: hexLower d4 :: tail)
      = some (Char.ofNat (d3 * 16 + d4), tail) := by
  rw [readUnicodeEscape]
  have hz : hexVal '0' = some 0 := by decide
  rw [hz, hexVal_hexLower d3 h3, hexVal_hexLower d4 h4]
  dsimp only
  rw [if_pos (Or.inl (by omega))]
  norm_num

/-- Parsing one escaped character undoes its escaping and continues, one
unit of fuel consumed. -/
theorem parseStringLoop_escapeChar (c : Char) (fuel : Nat) (tail : List Char) :
    parseStringLoop (fuel + 1) (escapeJsonChar c ++ tail)
      = consMap c (parseStringLoop fuel tail) := by
  by_cases h34 : c.toNat = 34
  · rw [escapeJsonChar, if_pos h34, List.cons_append, List.cons_append, List.nil_append,
      parseStringLoop]
    try dsimp only
    rw [if_neg (by decide), if_pos rfl]
    try dsimp only
    rw [if_pos rfl]
    have hc : ('"' : Char) = c := char_toNat_inj (by rw [h34]; decide)
    rw [hc]
  · by_cases h92 : c.toNat = 92
    · rw [escapeJsonChar, if_neg h34, if_pos h92, List.cons_append, List.cons_append,
        List.nil_append, parseStringLoop]
      try dsimp only
      rw [if_neg (by decide), if_pos rfl]
      try dsimp only
      rw [if_neg (by decide), if_pos rfl]
      have hc : ('\\' : Char) = c := char_toNat_inj (by rw [h92]; decide)
      rw [hc]
    · by_cases h8 : c.toNat = 8
      · rw [escapeJsonChar, if_neg h34, if_neg h92, if_pos h8, List.cons_append,
          List.cons_append, List.nil_append, parseStringLoop]
        try dsimp only
        rw [if_neg (by decide), if_pos rfl]
        try dsimp only
        rw [if_neg (by decide), if_neg (by decide), if_neg (by decide), if_pos rfl]
        have hc : Char.ofNat 8 = c := by rw [← h8, Char.ofNat_toNat]
        rw [hc]
      · by_cases h9 : c.toNat = 9
        · rw [escapeJsonChar, if_neg h34, if_neg h92, if_neg h8, if_pos h9,
            List.cons_append, List.cons_append, List.nil_append, parseStringLoop]
          try dsimp only
          rw [if_neg (by decide), if_pos rfl]
          try dsimp only
          rw [if_neg (by decide), if_neg (by decide), if_neg (by decide),
            if_neg (by decide), if_neg (by decide), if_neg (by decide),
            if_neg (by decide), if_pos rfl]
          have hc : Char.ofNat 9 = c := by rw [← h9, Char.ofNat_toNat]
          rw [hc]
        · by_cases h10 : c.toNat = 10
          · rw [escapeJsonChar, if_neg h34, if_neg h92, if_neg h8, if_neg h9,
              if_pos h10, List.cons_append, List.cons_append, List.nil_append,
              parseStringLoop]
            try dsimp only
            rw [if_neg (by decide), if_pos rfl]
            try dsimp only
            rw [if_neg (by decide), if_neg (by decide), if_neg (by decide),
              if_neg (by decide), if_neg (by decide), if_pos rfl]
            have hc : Char.ofNat 10 = c := by rw [← h10, Char.ofNat_toNat]
            rw [hc]
          · by_cases h12 : c.toNat = 12
            · rw [escapeJsonChar, if_neg h34, if_neg h92, if_neg h8, if_neg h9,
                if_neg h10, if_pos h12, List.cons_append, List.cons_append,
                List.nil_append, parseStringLoop]
              try dsimp only
              rw [if_neg (by decide), if_pos rfl]
              try dsimp only
              rw [if_neg (by decide), if_neg (by decide), if_neg (by decide),
                if_neg (by decide), if_pos rfl]
              have hc : Char.ofNat 12 = c := by rw [← h12, Char.ofNat_toNat]
              rw [hc]
            · by_cases h13 : c.toNat = 13
              · rw [escapeJsonChar, if_neg h34, if_neg h92, if_neg h8, if_neg h9,
                  if_neg h10, if_neg h12, if_pos h13, List.cons_append, List.cons_append,
                  List.nil_append, parseStringLoop]
                try dsimp only
                rw [if_neg (by decide), if_pos rfl]
                try dsimp only
                rw [if_neg (by decide), if_neg (by decide), if_neg (by decide),
                  if_neg (by decide), if_neg (by decide), if_neg (by decide),
                  if_pos rfl]
                have hc : Char.ofNat 13 = c := by rw [← h13, Char.ofNat_toNat]
                rw [hc]
              · by_cases h32 : c.toNat < 32
                · rw [escapeJsonChar, if_neg h34, if_neg h92, if_neg h8, if_neg h9,
                    if_neg h10, if_neg h12, if_neg h13, if_pos h32, List.cons_append,
                    List.cons_append, List.cons_append, List.cons_append,
                    List.cons_append, List.cons_append, List.nil_append,
                    parseStringLoop]
                  try dsimp only
                  rw [if_neg (by decide), if_pos rfl]
                  try dsimp only
                  rw [if_neg (by decide), if_neg (by decide), if_neg (by decide),
                    if_neg (by decide), if_neg (by decide), if_neg (by decide),
                    if_neg (by decide), if_neg (by decide), if_pos rfl]
                  rw [readUnicodeEscape_low (c.toNat / 16) (c.toNat % 16)
                    (by omega) (by omega)]
                  try dsimp only
                  have hcode : c.toNat / 16 * 16 + c.toNat % 16 = c.toNat := by omega
                  rw [hcode, Char.ofNat_toNat]
                · rw [escapeJsonChar, if_neg h34, if_neg h92, if_neg h8, if_neg h9,
                    if_neg h10, if_neg h12, if_neg h13, if_neg h32, List.cons_append,
                    List.nil_append, parseStringLoop.eq_def]
                  dsimp only
                  rw [if_neg (fun he => by rw [he] at h34; exact h34 (by decide)),
                    if_neg (fun he => by rw [he] at h92; exact h92 (by decide)),
                    if_neg (by omega)]

/-- The string round trip at any sufficient fuel: an escaped body followed
by a closing quote parses back to the original characters. -/
theorem parseStringLoop_escapeString (s : List Char) : ∀ (extra : Nat) (rest : List Char),
    parseStringLoop (s.length + 1 + extra) (escapeString s ++ '"' :: rest)
      = some (s, rest) := by
  induction s with
  | nil =>
    intro extra rest
    have h : ([] : List Char).length + 1 + extra = extra + 1 := by simp; omega
    rw [h, escapeString, concatMap, List.nil_append, parseStringLoop.eq_def]
    dsimp only
    rw [if_pos rfl]
  | cons c s ih =>
    intro extra rest
    have h : (c :: s).length + 1 + extra = (s.length + 1 + extra) + 1 := by
      simp [List.length_cons]; omega
    rw [h, escapeString, concatMap, List.append_assoc,
      show concatMap escapeJsonChar s = escapeString s from rfl,
      parseStringLoop_escapeChar, ih extra rest, consMap]

/-- Escaping never shrinks a string. -/
theorem escapeString_length_ge (s : List Char) : s.length ≤ (escapeString s).length := by
  induction s with
  | nil => simp [escapeString, concatMap]
  | cons c s ih =>
    rw [escapeString, concatMap, List.length_append,
      show concatMap escapeJsonChar s = escapeString s from rfl]
    have h1 : 1 ≤ (escapeJsonChar c).length := by
      rw [escapeJsonChar]
      repeat' split
      all_goals simp
    simp only [List.length_cons]
    omega

/-- The string round trip for the wrapper with its own input-based fuel. -/
theorem parseStringRest_escapeString (s : List Char) (rest : List Char) :
    parseStringRest (escapeString s ++ '"' :: rest) = some (s, rest) := by
  rw [parseStringRest]
  have hge := escapeString_length_ge s
  have hl : (escapeString s ++ '"' :: rest).length + 1
      = s.length + 1 + ((escapeString s).length - s.length + 1 + rest.length) := by
    simp [List.length_append, List.length_cons]
    omega
  rw [hl]
  exact parseStringLoop_escapeString s _ rest

/-! ## Parser step lemmas for the wire-format report -/

/-- A string rebuilt from its own characters is itself. -/
theorem string_mk_data (s : String) : (⟨s.data⟩ : String) = s := rfl

/-- Shape of a quoted string literal followed by anything. -/
theorem quoteChars_append (s : String) (X : List Char) :
    quoteChars s ++ X = '"' :: (escapeString s.data ++ '"' :: X) := by
  simp [quoteChars, List.append_assoc]

/-- Shape of a quoted key, its colon, and anything after. -/
theorem keyChars_append (k : String) (X : List Char) :
    keyChars k ++ X = '"' :: (escapeString k.data ++ '"' :: (':' :: X)) := by
  simp [keyChars, quoteChars, List.append_assoc]

/-- A quoted string parses as a JSON string value in one unit of fuel. -/
theorem parseValue_quote (f : Nat) (s : String) (rest : List Char) :
    parseValue (f + 1) (quoteChars s ++ rest) = some (.jstr s, rest) := by
  rw [quoteChars_append, parseValue]
  rw [if_neg (by decide), if_neg (by decide), if_pos rfl,
    parseStringRest_escapeString]

/-- A printed integer followed by a comma parses as a JSON number value in
one unit of fuel. -/
theorem parseValue_int (f : Nat) (t : Int) (rest : List Char) :
    parseValue (f + 1) (intChars t ++ ',' :: rest)
      = some (.jnum (t : Rat), ',' :: rest) := by
  obtain ⟨c, t2, hct, hc⟩ := intChars_head t
  rw [hct, List.cons_append, parseValue]
  rw [if_neg (fun he => by rw [he] at hc; revert hc; decide),
    if_neg (fun he => by rw [he] at hc; revert hc; decide),
    if_neg (fun he => by rw [he] at hc; revert hc; decide),
    if_neg (fun he => by rw [he] at hc; revert hc; decide),
    if_neg (fun he => by rw [he] at hc; revert hc; decide),
    if_neg (fun he => by rw [he] at hc; revert hc; decide)]
  have hback : c :: (t2 ++ ',' :: rest) = intChars t ++ ',' :: rest := by
    rw [hct, List.cons_append]
  rw [hback, parseNumber_intChars]

/-- Head shape of a nonempty element list: it opens with a quote. -/
theorem elemsChars_cons_eq (t : String) (ts : List String) :
    ∃ Y, elemsChars (t :: ts) = '"' :: Y := by
  cases ts with
  | nil =>
    refine ⟨escapeString t.data ++ ['"'], ?_⟩
    show quoteChars t = _
    rw [quoteChars]
  | cons t2 ts2 =>
    refine ⟨(escapeString t.data ++ ['"']) ++ ',' :: elemsChars (t2 :: ts2), ?_⟩
    show quoteChars t ++ ',' :: elemsChars (t2 :: ts2) = _
    rw [quoteChars, List.cons_append]

/-- One or more quoted strings, comma separated and closed by a bracket,
parse back to the same strings. -/
theorem parseElems_strings (ts : List String) : ∀ (t : String) (f : Nat) (rest : List Char),
    parseElems (f + (t :: ts).length + 1) (elemsChars (t :: ts) ++ ']' :: rest)
      = some ((t :: ts).map .jstr, rest) := by
  induction ts with
  | nil =>
    intro t f rest
    have hfu : f + ([t] : List String).length + 1 = (f + 1) + 1 := by
      simp [List.length_cons]
    rw [hfu, elemsChars, parseElems, parseValue_quote f t (']' :: rest)]
    dsimp only
    rw [skipWs_not (by decide)]
    dsimp only
    rw [if_neg (by decide), if_pos rfl]
    rfl
  | cons t2 ts2 ih =>
    intro t f rest
    have hfu : f + (t :: t2 :: ts2).length + 1 = ((f + (t2 :: ts2).length + 1)) + 1 := by
      simp [List.length_cons]; omega
    rw [hfu, elemsChars, List.append_assoc, List.cons_append, parseElems,
      parseValue_quote _ t (',' :: (elemsChars (t2 :: ts2) ++ ']' :: rest))]
    dsimp only
    rw [skipWs_not (by decide)]
    dsimp only
    rw [if_pos rfl]
    obtain ⟨Y, hY⟩ := elemsChars_cons_eq t2 ts2
    rw [hY, List.cons_append, skipWs_not (by decide), ← List.cons_append, ← hY,
      ih t2 f rest]
    · rfl
    · simp

/-- A printed string array parses as a JSON array of strings. -/
theorem parseValue_arr (f : Nat) (ts : List String) (rest : List Char) :
    parseValue (f + ts.length + 2) (arrChars ts ++ rest)
      = some (.jarr (ts.map .jstr), rest) := by
  rw [arrChars, List.cons_append, List.append_assoc, List.singleton_append]
  cases ts with
  | nil =>
    have hfu : f + ([] : List String).length + 2 = (f + 1) + 1 := by simp
    rw [hfu, elemsChars, List.nil_append, parseValue, if_neg (by decide), if_pos rfl]
    rw [skipWs_not (by decide)]
    dsimp only
    rw [if_pos rfl]
    rfl
  | cons t ts2 =>
    have hfu : f + (t :: ts2).length + 2 = (f + (t :: ts2).length + 1) + 1 := by omega
    rw [hfu, parseValue, if_neg (by decide), if_pos rfl]
    obtain ⟨Y, hY⟩ := elemsChars_cons_eq t ts2
    rw [hY, List.cons_append, skipWs_not (by decide)]
    dsimp only
    rw [if_neg (by decide), ← List.cons_append, ← hY, parseElems_strings ts2 t f rest]

/-- Canonical cons shape of the report's member characters followed by
anything: the three members in source order. -/
theorem membersChars_append (r : ReportData) (X : List Char) :
    membersChars r ++ X
      = '"' :: (escapeString "sender".data ++ '"' :: (':' :: (quoteChars r.sender
          ++ ',' :: ('"' :: (escapeString "received_at".data ++ '"' :: (':'
          :: (intChars r.received_at
          ++ ',' :: ('"' :: (escapeString "trackers".data ++ '"' :: (':'
          :: (arrChars r.trackers ++ X))))))))))) := by
  simp [membersChars, keyChars, quoteChars, List.append_assoc]

/-- The three members of a report object parse back to the three bindings
in source order: sender, received_at, trackers. -/
theorem parseMembers_report (f : Nat) (r : ReportData) (rest : List Char) :
    parseMembers (f + r.trackers.length + 5) (membersChars r ++ '\x7d' :: rest)
      = some ([("sender", .jstr r.sender),
               ("received_at", .jnum (r.received_at : Rat)),
               ("trackers", .jarr (r.trackers.map .jstr))], rest) := by
  rw [membersChars_append]
  have hfu : f + r.trackers.length + 5 = (f + r.trackers.length + 4) + 1 := by omega
  rw [hfu, parseMembers, if_pos rfl, parseStringRest_escapeString]
  dsimp only
  rw [skipWs_not (by decide)]
  dsimp only
  rw [if_pos rfl]
  rw [quoteChars_append, skipWs_not (by decide), ← quoteChars_append]
  rw [parseValue_quote _ r.sender]
  dsimp only
  rw [skipWs_not (by decide)]
  dsimp only
  rw [if_pos rfl]
  rw [skipWs_not (by decide)]
  have hfu2 : f + r.trackers.length + 4 = (f + r.trackers.length + 3) + 1 := by omega
  rw [hfu2, parseMembers, if_pos rfl, parseStringRest_escapeString]
  dsimp only
  rw [skipWs_not (by decide)]
  dsimp only
  rw [if_pos rfl]
  obtain ⟨c, t2, hct, hcd⟩ := intChars_head r.received_at
  have hws : isWsChar c = false := by
    simp only [isWsChar, Bool.or_eq_false_iff, decide_eq_false_iff_not]
    omega
  rw [hct, List.cons_append, skipWs_not hws, ← List.cons_append, ← hct]
  rw [parseValue_int _ r.received_at]
  dsimp only
  rw [skipWs_not (by decide)]
  dsimp only
  rw [if_pos rfl]
  rw [skipWs_not (by decide)]
  have hfu3 : f + r.trackers.length + 3 = (f + r.trackers.length + 2) + 1 := by omega
  rw [hfu3, parseMembers, if_pos rfl, parseStringRest_escapeString]
  dsimp only
  rw [skipWs_not (by decide)]
  dsimp only
  rw [if_pos rfl]
  rw [arrChars, List.cons_append, skipWs_not (by decide), ← List.cons_append, ← arrChars]
  rw [parseValue_arr f r.trackers ('\x7d' :: rest)]
  dsimp only
  rw [skipWs_not (by decide)]
  dsimp only
  rw [if_neg (by decide), if_pos rfl]

/-- A whole wire-format report object parses to its JSON value. -/
theorem parseValue_report (f : Nat) (r : ReportData) (rest : List Char) :
    parseValue (f + r.trackers.length + 6) (reportChars r ++ rest)
      = some (reportJson r, rest) := by
  rw [reportChars, List.cons_append, List.append_assoc, List.singleton_append]
  have hfu : f + r.trackers.length + 6 = (f + r.trackers.length + 5) + 1 := by omega
  rw [hfu, parseValue, if_pos rfl]
  rw [membersChars_append, skipWs_not (by decide), ← membersChars_append]
  rw [membersChars_append]
  dsimp only
  rw [if_neg (by decide)]
  rw [← membersChars_append, parseMembers_report f r rest]
  rfl

/-- Element lists are at least as long as the string lists they print,
less one. -/
theorem elemsChars_length_ge (ts : List String) :
    ts.length ≤ (elemsChars ts).length + 1 := by
  induction ts with
  | nil => simp [elemsChars]
  | cons t ts2 ih =>
    cases ts2 with
    | nil => simp [elemsChars]
    | cons t2 ts3 =>
      rw [elemsChars, List.length_append]
      · simp only [List.length_cons] at ih ⊢
        omega
      · simp

/-- The trackers count is bounded by the printed report's length. -/
theorem trackers_le_reportChars (r : ReportData) :
    r.trackers.length ≤ (reportChars r).length := by
  have h1 := elemsChars_length_ge r.trackers
  rw [reportChars, membersChars, arrChars]
  simp only [List.length_cons, List.length_append]
  omega

/-- The JSON round trip for the report wire format. -/
theorem jsonParse_reportChars (r : ReportData) :
    jsonParse (reportChars r) = some (reportJson r) := by
  rw [jsonParse]
  have hlen := trackers_le_reportChars r
  have hsk : skipWs (reportChars r) = reportChars r := by
    rw [reportChars, skipWs_not (by decide)]
  rw [hsk]
  have hf : 2 * (reportChars r).length + 9
      = (2 * (reportChars r).length + 3 - r.trackers.length) + r.trackers.length + 6 := by
    omega
  rw [hf]
  have hmain := parseValue_report (2 * (reportChars r).length + 3 - r.trackers.length) r []
  rw [List.append_nil] at hmain
  rw [hmain]
  dsimp only
  rw [if_pos (show skipWs ([] : List Char) = [] from rfl)]

/-! ## Shape-check facts and the parseHash characterization -/

/-- Sender lookup on a report's JSON value. -/
theorem getProp_report_sender (r : ReportData) :
    getProp (reportJson r) "sender" = some (.jstr r.sender) := rfl

/-- Timestamp lookup on a report's JSON value. -/
theorem getProp_report_received_at (r : ReportData) :
    getProp (reportJson r) "received_at" = some (.jnum (r.received_at : Rat)) := rfl

/-- Trackers lookup on a report's JSON value. -/
theorem getProp_report_trackers (r : ReportData) :
    getProp (reportJson r) "trackers" = some (.jarr (r.trackers.map .jstr)) := rfl

/-- A report's JSON value passes the shape check. -/
theorem containsReportData_reportJson (r : ReportData) :
    containsReportData (reportJson r) = true := by
  rw [containsReportData, getProp_report_sender, getProp_report_received_at,
    getProp_report_trackers, reportJson]
  simp only [typeofObject, isNullJson, isStringJson, isIntegerJson, trackersOk,
    Bool.not_false, Bool.and_eq_true, Nat.beq_eq_true_eq]
  refine ⟨⟨⟨⟨trivial, trivial⟩, trivial⟩, Rat.den_intCast r.received_at⟩, ?_⟩
  simp [List.all_eq_true, List.mem_map, isStrElem]

/-- Projecting the string elements back out of a mapped string array. -/
theorem filterMap_asString_map_jstr (ts : List String) :
    (ts.map JsonValue.jstr).filterMap asString = ts := by
  rw [List.filterMap_map]
  have h : asString ∘ JsonValue.jstr = some := funext (fun s => rfl)
  rw [h, List.filterMap_some]

/-- Unfolding parseHash on a successful run: decode, parse, shape check,
and the three field copies. -/
theorem parseHash_eq_some (h : String) (body : List Char) (v : JsonValue)
    (hdec : decodePercent (h.data.drop 1) = some body)
    (hjson : jsonParse body = some v)
    (S : String) (T : Rat) (es : List JsonValue)
    (hS : getProp v "sender" = some (.jstr S))
    (hT : getProp v "received_at" = some (.jnum T))
    (hes : getProp v "trackers" = some (.jarr es))
    (hvalid : containsReportData v = true) :
    parseHash h = some ⟨S, T.num, es.filterMap asString⟩ := by
  rw [parseHash, hdec]
  dsimp only
  rw [hjson]
  dsimp only
  rw [if_pos hvalid, hS, hT, hes]

/-- Decode failures make parseHash fail. -/
theorem parseHash_none_decode (h : String)
    (hdec : decodePercent (h.data.drop 1) = none) : parseHash h = none := by
  rw [parseHash, hdec]

/-- JSON failures make parseHash fail. -/
theorem parseHash_none_json (h : String) (body : List Char)
    (hdec : decodePercent (h.data.drop 1) = some body)
    (hjson : jsonParse body = none) : parseHash h = none := by
  rw [parseHash, hdec]
  dsimp only
  rw [hjson]

/-- Shape failures make parseHash fail. -/
theorem parseHash_none_invalid (h : String) (body : List Char) (v : JsonValue)
    (hdec : decodePercent (h.data.drop 1) = some body)
    (hjson : jsonParse body = some v)
    (hvalid : containsReportData v = false) : parseHash h = none := by
  rw [parseHash, hdec]
  dsimp only
  rw [hjson]
  dsimp only
  rw [if_neg (by rw [hvalid]; exact Bool.false_ne_true)]

/-- A successful parseHash run passes the shape check: the guard is the
only gate to the success branch. -/
theorem parseHash_some_valid (h : String) (body : List Char) (v : JsonValue) (r : ReportData)
    (hdec : decodePercent (h.data.drop 1) = some body)
    (hjson : jsonParse body = some v)
    (hr : parseHash h = some r) : containsReportData v = true := by
  by_cases hvalid : containsReportData v = true
  · exact hvalid
  · rw [parseHash_none_invalid h body v hdec hjson
      (Bool.not_eq_true _ ▸ hvalid : containsReportData v = false)] at hr
    exact Option.noConfusion hr

/-- String test characterized. -/
theorem isStringJson_iff (o : Option JsonValue) :
    isStringJson o = true ↔ ∃ S, o = some (.jstr S) := by
  cases o with
  | none => simp [isStringJson]
  | some w => cases w <;> simp [isStringJson]

/-- Integer test characterized. -/
theorem isIntegerJson_iff (o : Option JsonValue) :
    isIntegerJson o = true ↔ ∃ T : Rat, o = some (.jnum T) ∧ T.den = 1 := by
  cases o with
  | none => simp [isIntegerJson]
  | some w => cases w <;> simp [isIntegerJson]

/-- String element test characterized. -/
theorem isStrElem_iff (e : JsonValue) : isStrElem e = true ↔ ∃ s, e = .jstr s := by
  cases e <;> simp [isStrElem]

/-- Trackers test characterized. -/
theorem trackersOk_iff (o : Option JsonValue) :
    trackersOk o = true
      ↔ ∃ es, o = some (.jarr es) ∧ ∀ e ∈ es, ∃ s, e = .jstr s := by
  cases o with
  | none => simp [trackersOk]
  | some w =>
    cases w <;> simp [trackersOk, List.all_eq_true, isStrElem_iff]

/-- The shape check passes exactly on records with a string sender, an
integral number received_at, and an all-string trackers array. -/
theorem containsReportData_iff (v : JsonValue) :
    containsReportData v = true
      ↔ ((∃ fields, v = .jobj fields)
          ∧ (∃ S, getProp v "sender" = some (.jstr S))
          ∧ (∃ T : Rat, getProp v "received_at" = some (.jnum T) ∧ T.den = 1)
          ∧ (∃ es, getProp v "trackers" = some (.jarr es)
              ∧ ∀ e ∈ es, ∃ s, e = .jstr s)) := by
  constructor
  · intro hv
    rw [containsReportData] at hv
    simp only [Bool.and_eq_true] at hv
    obtain ⟨⟨⟨⟨hobj, hnn⟩, hs⟩, hi⟩, htr⟩ := hv
    have hfields : ∃ fields, v = .jobj fields := by
      cases v with
      | jobj fields => exact ⟨fields, rfl⟩
      | jarr es => rw [show getProp (.jarr es) "sender" = none from rfl] at hs
                   simp [isStringJson] at hs
      | jnull => simp [isNullJson] at hnn
      | jbool b => simp [typeofObject] at hobj
      | jnum q => simp [typeofObject] at hobj
      | jstr s => simp [typeofObject] at hobj
    exact ⟨hfields, (isStringJson_iff _).mp hs, (isIntegerJson_iff _).mp hi,
      (trackersOk_iff _).mp htr⟩
  · rintro ⟨⟨fields, rfl⟩, ⟨S, hS⟩, ⟨T, hT, hden⟩, ⟨es, hes, hstr⟩⟩
    rw [containsReportData, hS, hT, hes]
    simp only [typeofObject, isNullJson, isStringJson, isIntegerJson, trackersOk,
      Bool.not_false, Bool.and_eq_true, Nat.beq_eq_true_eq]
    refine ⟨⟨⟨⟨trivial, trivial⟩, trivial⟩, hden⟩, ?_⟩
    simp only [List.all_eq_true, isStrElem_iff]
    exact hstr

/-- The full round trip behind the spec's round-trip property. -/
theorem parseHash_encode (r : ReportData) : parseHash (encodeReport r) = some r := by
  have h := parseHash_eq_some (encodeReport r) (reportChars r) (reportJson r)
    (by rw [show (encodeReport r).data.drop 1 = percentEncode (reportChars r) from rfl,
          decodePercent_percentEncode])
    (jsonParse_reportChars r)
    r.sender (r.received_at : Rat) (r.trackers.map .jstr)
    (getProp_report_sender r) (getProp_report_received_at r)
    (getProp_report_trackers r) (containsReportData_reportJson r)
  rw [h, Rat.num_intCast, filterMap_asString_map_jstr]

/-- Rebuilding a proven-all-strings element list from its projection. -/
theorem map_jstr_filterMap_asString (es : List JsonValue)
    (h : ∀ e ∈ es, ∃ s, e = .jstr s) :
    (es.filterMap asString).map JsonValue.jstr = es := by
  induction es with
  | nil => rfl
  | cons e es ih =>
    obtain ⟨s, rfl⟩ := h e (List.mem_cons_self e es)
    rw [List.filterMap_cons]
    dsimp only [asString]
    rw [List.map_cons, ih (fun x hx => h x (List.mem_cons_of_mem _ hx))]

/-! ## The claims -/

/-- C1: for every input fragment whose decoded body is a record with a
string sender S, an integer received_at T, and a trackers sequence whose
elements are all strings, parseHash returns a ReportData whose fields are
exactly S, T, and the trackers in the original order, duplicates
preserved (the list ts is arbitrary, so equal results on equal lists
cover duplicates and order), and with no extra fields added (ReportData
has exactly the three fields). -/
theorem claim_C1_valid_input (h : String) (body : List Char) (v : JsonValue)
    (S : String) (T : Int) (ts : List String)
    (hdec : decodePercent (h.data.drop 1) = some body)
    (hjson : jsonParse body = some v)
    (hobj : ∃ fields, v = .jobj fields)
    (hS : getProp v "sender" = some (.jstr S))
    (hT : getProp v "received_at" = some (.jnum (T : Rat)))
    (hts : getProp v "trackers" = some (.jarr (ts.map .jstr))) :
    parseHash h = some ⟨S, T, ts⟩ := by
  have hvalid : containsReportData v = true := by
    rw [containsReportData_iff]
    refine ⟨hobj, ⟨S, hS⟩, ⟨(T : Rat), hT, Rat.den_intCast T⟩, ⟨ts.map .jstr, hts, ?_⟩⟩
    intro e he
    rw [List.mem_map] at he
    obtain ⟨s, _, hs⟩ := he
    exact ⟨s, hs.symm⟩
  have hm := parseHash_eq_some h body v hdec hjson S (T : Rat) (ts.map .jstr)
    hS hT hts hvalid
  rw [hm, Rat.num_intCast, filterMap_asString_map_jstr]

/-- Witness for C1 at a concrete fragment with duplicated trackers. -/
theorem claim_C1_valid_input_witness :
    parseHash "#\x7b\"sender\":\"a@b.com\",\"received_at\":5,\"trackers\":[\"x\",\"x\"]\x7d"
      = some ⟨"a@b.com", 5, ["x", "x"]⟩ :=
  claim_C1_valid_input _ _ _ "a@b.com" 5 ["x", "x"] rfl rfl ⟨_, rfl⟩ rfl rfl rfl

/-- C2 counterexample: the claim says received_at is renamed to receivedAt
on the output record.  The source type (line 23) and the record literal
(line 198) keep the name received_at.  At this concrete input the parse
succeeds, and the returned record, viewed as the JavaScript object the
code constructs (jsObjectOfReport), has no receivedAt key: the value
sits under received_at. -/
theorem claim_C2_counterexample :
    parseHash
        "#\x7b\"sender\":\"a\",\"received_at\":5,\"trackers\":[\"x\"],\"extra\":true\x7d"
      = some ⟨"a", 5, ["x"]⟩
    ∧ lookupLast (jsObjectOfReport ⟨"a", 5, ["x"]⟩) "receivedAt" = none
    ∧ lookupLast (jsObjectOfReport ⟨"a", 5, ["x"]⟩) "received_at"
        = some (.jnum ((5 : Int) : Rat)) :=
  ⟨rfl, rfl, rfl⟩

/-- C2 (amended): on every successful parse, the result is constructed by
copying exactly the three recognized fields of the input record, with
received_at kept under its source name received_at (not renamed), and
any extra input fields dropped: the output record holds exactly the keys
sender, received_at and trackers, in that order, with the input's values. -/
theorem claim_C2_copies_three_fields (h : String) (body : List Char) (v : JsonValue)
    (S : String) (T : Rat) (es : List JsonValue)
    (hdec : decodePercent (h.data.drop 1) = some body)
    (hjson : jsonParse body = some v)
    (hS : getProp v "sender" = some (.jstr S))
    (hT : getProp v "received_at" = some (.jnum T))
    (hes : getProp v "trackers" = some (.jarr es))
    (hvalid : containsReportData v = true) :
    (parseHash h).map jsObjectOfReport
      = some [("sender", .jstr S), ("received_at", .jnum T),
              ("trackers", .jarr es)] := by
  obtain ⟨_, _, ⟨T2, hT2, hden⟩, ⟨es2, hes2, hstr⟩⟩ := (containsReportData_iff v).mp hvalid
  have hTT : T2 = T := by
    rw [hT] at hT2
    simp only [Option.some.injEq, JsonValue.jnum.injEq] at hT2
    exact hT2.symm
  have hee : es2 = es := by
    rw [hes] at hes2
    simp only [Option.some.injEq, JsonValue.jarr.injEq] at hes2
    exact hes2.symm
  subst hTT hee
  rw [parseHash_eq_some h body v hdec hjson S T2 es2 hS hT hes hvalid]
  rw [Option.map_some', jsObjectOfReport]
  rw [Rat.coe_int_num_of_den_eq_one hden, map_jstr_filterMap_asString es2 hstr]

/-- Witness for the amended C2 at a concrete fragment carrying an extra
field, which the output record drops. -/
theorem claim_C2_copies_three_fields_witness :
    (parseHash
        "#\x7b\"sender\":\"b\",\"received_at\":7,\"trackers\":[\"y\"],\"junk\":null\x7d").map
        jsObjectOfReport
      = some [("sender", .jstr "b"), ("received_at", .jnum ((7 : Int) : Rat)),
              ("trackers", .jarr [.jstr "y"])] :=
  claim_C2_copies_three_fields _ _ _ "b" ((7 : Int) : Rat) [.jstr "y"]
    rfl rfl rfl rfl rfl rfl

/-- C3: parseHash accepts a decoded value, returning a ReportData rather
than the failure signal, if and only if the value is a record whose
sender is a string, whose received_at is an integer, and whose trackers
is a sequence of strings; any absent, null or wrong-typed field rejects
the whole value. -/
theorem claim_C3_accept_iff (h : String) (body : List Char) (v : JsonValue)
    (hdec : decodePercent (h.data.drop 1) = some body)
    (hjson : jsonParse body = some v) :
    (∃ r, parseHash h = some r)
      ↔ ((∃ fields, v = .jobj fields)
          ∧ (∃ S, getProp v "sender" = some (.jstr S))
          ∧ (∃ T : Rat, getProp v "received_at" = some (.jnum T) ∧ T.den = 1)
          ∧ (∃ es, getProp v "trackers" = some (.jarr es)
              ∧ ∀ e ∈ es, ∃ s, e = .jstr s)) := by
  rw [← containsReportData_iff]
  constructor
  · rintro ⟨r, hr⟩
    exact parseHash_some_valid h body v r hdec hjson hr
  · intro hvalid
    obtain ⟨_, ⟨S, hS⟩, ⟨T, hT, _⟩, ⟨es, hes, _⟩⟩ := (containsReportData_iff v).mp hvalid
    exact ⟨_, parseHash_eq_some h body v hdec hjson S T es hS hT hes hvalid⟩

/-- Witness for C3 at a concrete valid fragment, through the backward
direction of the equivalence. -/
theorem claim_C3_accept_iff_witness :
    (parseHash "#\x7b\"sender\":\"c\",\"received_at\":2,\"trackers\":[\"t\"]\x7d").isSome
      = true := by
  obtain ⟨r, hr⟩ :=
    (claim_C3_accept_iff "#\x7b\"sender\":\"c\",\"received_at\":2,\"trackers\":[\"t\"]\x7d"
        _ _ rfl rfl).mpr
      ⟨⟨_, rfl⟩, ⟨"c", rfl⟩, ⟨((2 : Int) : Rat), rfl, rfl⟩,
        ⟨[.jstr "t"], rfl, fun e he => ⟨"t", by simpa using he⟩⟩⟩
  rw [hr]
  rfl

/-- C4: for every input string parseHash produces exactly one of a
ReportData or the single failure signal none; the three failure causes,
malformed decoding or syntax, and wrong shape, all collapse to that same
none, and nothing else escapes (the function is total). -/
theorem claim_C4_total_single_failure (h : String) :
    (parseHash h = none ∨ ∃ r, parseHash h = some r)
    ∧ (decodePercent (h.data.drop 1) = none → parseHash h = none)
    ∧ (∀ body, decodePercent (h.data.drop 1) = some body → jsonParse body = none →
        parseHash h = none)
    ∧ (∀ body v, decodePercent (h.data.drop 1) = some body → jsonParse body = some v →
        containsReportData v = false → parseHash h = none) := by
  refine ⟨?_, parseHash_none_decode h, fun body => parseHash_none_json h body,
    fun body v => parseHash_none_invalid h body v⟩
  cases hp : parseHash h with
  | none => exact Or.inl rfl
  | some r => exact Or.inr ⟨r, rfl⟩

/-- Witness for C4: a fragment whose body is valid JSON of the wrong
shape is collapsed to the failure signal. -/
theorem claim_C4_total_single_failure_witness : parseHash "#null" = none :=
  (claim_C4_total_single_failure "#null").2.2.2 "null".data .jnull rfl rfl rfl

/-- C5: the empty fragment and the bare delimiter both fail: stripping
the first character leaves the empty string, which is not valid JSON. -/
theorem claim_C5_empty_inputs : parseHash "" = none ∧ parseHash "#" = none :=
  ⟨rfl, rfl⟩

/-- C6: a fragment whose decoded body is valid JSON whose top-level value
is not a record, a primitive or a sequence, is rejected. -/
theorem claim_C6_nonrecord (h : String) (body : List Char) (v : JsonValue)
    (hdec : decodePercent (h.data.drop 1) = some body)
    (hjson : jsonParse body = some v)
    (hnr : ∀ fields, v ≠ .jobj fields) :
    parseHash h = none := by
  apply parseHash_none_invalid h body v hdec hjson
  cases v with
  | jobj fields => exact absurd rfl (hnr fields)
  | jnull => rfl
  | jbool b => rfl
  | jnum q => rfl
  | jstr s => rfl
  | jarr es => rfl

/-- Witness for C6 at the spec's bare-array example. -/
theorem claim_C6_nonrecord_witness : parseHash "#[1,2,3]" = none :=
  claim_C6_nonrecord _ _ _ rfl rfl (fun _ he => nomatch he)

/-- C7: the round trip.  Encoding any ReportData to the wire format, the
JSON object with sender, received_at and trackers after the hash
delimiter, and applying parseHash yields a value equal to the original
in all three fields.  The encoder is modelled from the spec's section 6
wire format, since the link generator lives outside this page. -/
theorem claim_C7_roundtrip (r : ReportData) : parseHash (encodeReport r) = some r :=
  parseHash_encode r

/-- C8: determinism: parseHash applied to equal fragment strings yields
equal results; the result depends on nothing but the argument, there
being no hidden state in the embedding of this pure function. -/
theorem claim_C8_deterministic (h1 h2 : String) (heq : h1 = h2) :
    parseHash h1 = parseHash h2 := by rw [heq]

/-- Witness for C8 at a concrete fragment. -/
theorem claim_C8_deterministic_witness :
    parseHash "#\x7b\"sender\":\"d\",\"received_at\":1,\"trackers\":[\"u\"]\x7d"
      = parseHash "#\x7b\"sender\":\"d\",\"received_at\":1,\"trackers\":[\"u\"]\x7d" :=
  claim_C8_deterministic _ _ rfl

/-- C9: an empty trackers sequence is accepted: a record with a string
sender, an integer received_at, and trackers equal to the empty sequence
parses successfully into a ReportData with zero trackers. -/
theorem claim_C9_empty_trackers (h : String) (body : List Char) (v : JsonValue)
    (S : String) (T : Int)
    (hdec : decodePercent (h.data.drop 1) = some body)
    (hjson : jsonParse body = some v)
    (hobj : ∃ fields, v = .jobj fields)
    (hS : getProp v "sender" = some (.jstr S))
    (hT : getProp v "received_at" = some (.jnum (T : Rat)))
    (hts : getProp v "trackers" = some (.jarr [])) :
    parseHash h = some ⟨S, T, []⟩ := by
  have hvalid : containsReportData v = true := by
    rw [containsReportData_iff]
    exact ⟨hobj, ⟨S, hS⟩, ⟨(T : Rat), hT, Rat.den_intCast T⟩,
      ⟨[], hts, fun e he => absurd he (List.not_mem_nil e)⟩⟩
  have hm := parseHash_eq_some h body v hdec hjson S (T : Rat) [] hS hT hts hvalid
  rw [hm, Rat.num_intCast]
  rfl

/-- Witness for C9 at a concrete fragment with an empty trackers array. -/
theorem claim_C9_empty_trackers_witness :
    parseHash "#\x7b\"sender\":\"e\",\"received_at\":9,\"trackers\":[]\x7d"
      = some ⟨"e", 9, []⟩ :=
  claim_C9_empty_trackers _ _ _ "e" 9 rfl rfl ⟨_, rfl⟩ rfl rfl rfl

/-- C10: a fragment whose body is malformed percent-encoding, a lone
percent sign or a truncated escape, makes the URL-decoding step fail,
and that failure is absorbed into the same single failure signal as
JSON parse errors: the caller sees none, never an exception. -/
theorem claim_C10_decode_error (h : String)
    (hdec : decodePercent (h.data.drop 1) = none) : parseHash h = none :=
  parseHash_none_decode h hdec

/-- Witness for C10 at the lone percent and the truncated escape. -/
theorem claim_C10_decode_error_witness :
    parseHash "#%" = none ∧ parseHash "#%2" = none :=
  ⟨claim_C10_decode_error "#%" rfl, claim_C10_decode_error "#%2" rfl⟩

end TrackerReport
